/-
Verification of the adaptive word-level practice engine of the
Speech-Memorization-Platform repository.

Shallow embedding conventions:
* Python floats are modelled as exact rationals (ℚ); all constants in the
  relevant code paths are decimal literals, so the arithmetic is the same.
* Python `int(x)` (truncation toward zero) is modelled by `pyInt`.
* Python `str.split()` (split on whitespace runs, dropping empties) is
  modelled by `pySplit`; `str.split(sep)` by `String.splitOn`.
* Python list slicing `l[:k]` (with possibly negative `k`) is `pyTake`.
* Django model instances are modelled as plain records; the database rows
  for one (user, text) pair are a list of records.
* Wall-clock timestamps and display-only message strings are omitted: no
  claim depends on them.
-/
import Mathlib

namespace SpeechMemo

/-- Split a character list at every character satisfying `p`, keeping
empty pieces (the semantics of splitting on each single delimiter). -/
def splitCharsAux (p : Char → Bool) : List Char → List Char → List String
  | [], acc => [String.mk acc.reverse]
  | c :: cs, acc =>
    if p c then String.mk acc.reverse :: splitCharsAux p cs []
    else splitCharsAux p cs (c :: acc)

/-- Split a string at every character satisfying `p`, keeping empty
pieces. -/
def pyCharSplit (s : String) (p : Char → Bool) : List String :=
  splitCharsAux p s.toList []

/-- Python `str.split()`: split on whitespace runs, dropping empty pieces. -/
def pySplit (s : String) : List String :=
  (pyCharSplit s Char.isWhitespace).filter (fun t => t ≠ "")

/-- Python `str.lower()` (ASCII model). -/
def pyLower (s : String) : String :=
  String.mk (s.toList.map Char.toLower)

/-- Python `int(q)` on a float: truncation toward zero. -/
def pyInt (q : ℚ) : ℤ :=
  if 0 ≤ q then ⌊q⌋ else ⌈q⌉

/-- Python list slice `l[:k]` where `k` may be negative
(`l[:k] = l[:len(l)+k]` for negative `k`, clamped at 0). -/
def pyTake (l : List α) (k : ℤ) : List α :=
  if 0 ≤ k then l.take k.toNat else l.take ((l.length : ℤ) + k).toNat

/-! ## SpeechDiffScorer data model

`DiffEntry` embeds the dictionaries produced by
`PhraseBasedSpeechAnalyzer._generate_word_diff`
(src/memorization/ai_speech_service.py): fields `position`,
`expected_word`, `spoken_word`, `type` (renamed `dtype`; `type` is a Lean
keyword) and `status`. -/
structure DiffEntry where
  position : ℤ
  expected_word : String
  spoken_word : String
  dtype : String
  status : String
deriving Repr, DecidableEq

/-- Result record of `PhraseBasedPracticeEngine._determine_advancement`
(the `message` display string is omitted). -/
structure AdvancementResult where
  should_advance : Bool
  atype : String
  missed_words : List String
  needs_retry : Bool
deriving Repr, DecidableEq

/-- `PhraseBasedPracticeEngine._determine_advancement`
(src/memorization/ai_speech_service.py). -/
def determineAdvancement (word_differences : List DiffEntry) (accuracy : ℚ)
    (expected_phrase : String) : AdvancementResult :=
  let total_words : ℕ := (pySplit expected_phrase).length
  let correct_words : ℕ :=
    (word_differences.filter (fun d => d.status = "correct")).length
  let error_words : List DiffEntry :=
    word_differences.filter (fun d => d.status = "error")
  if 95 ≤ accuracy then
    ⟨true, "perfect", [], false⟩
  else if 80 ≤ accuracy then
    ⟨true, "good", error_words.map (·.expected_word), false⟩
  else if 60 ≤ accuracy then
    if error_words.length ≤ 2 ∧ (total_words : ℚ) * (6/10) ≤ (correct_words : ℚ) then
      ⟨true, "partial_with_skips", error_words.map (·.expected_word), false⟩
    else
      ⟨false, "needs_improvement", error_words.map (·.expected_word), true⟩
  else if 40 ≤ accuracy then
    ⟨false, "struggling", error_words.map (·.expected_word), true⟩
  else
    ⟨false, "retry_needed", error_words.map (·.expected_word), true⟩

/-! ## MasteryTracker: `WordProgress.update_mastery`
(src/memorization/models.py). -/

/-- The fields of the Django model `WordProgress` touched by
`update_mastery`.  `interval` is declared as a positive-integer field but
the method assigns it a float product, so it is kept as ℚ here. -/
structure WordProgressRec where
  times_practiced : ℕ
  times_correct : ℕ
  consecutive_failures : ℕ
  mastery_level : ℚ
  average_response_time : ℚ
  is_problem_word : Bool
  needs_review : Bool
  ease_factor : ℚ
  interval : ℚ
deriving Repr, DecidableEq

/-- `WordProgress.update_mastery` (src/memorization/models.py).
`next_review`, `last_practiced` and the database save are omitted
(wall-clock / persistence concerns). -/
def updateMastery (p : WordProgressRec) (success : Bool)
    (response_time : ℚ := 0) : WordProgressRec :=
  let times_practiced := p.times_practiced + 1
  let times_correct := if success then p.times_correct + 1 else p.times_correct
  let consecutive_failures := if success then 0 else p.consecutive_failures + 1
  let mastery_level :=
    if success then
      min (p.mastery_level + (1/10) * (1 - p.mastery_level)) 1
    else
      max (p.mastery_level - ((5/100) + (consecutive_failures : ℚ) * (2/100))) 0
  let average_response_time :=
    if 0 < response_time then
      if p.average_response_time = 0 then response_time
      else p.average_response_time * (8/10) + response_time * (2/10)
    else p.average_response_time
  let is_problem_word :=
    decide (3 ≤ consecutive_failures) || decide (mastery_level < 3/10) ||
      decide (5 < average_response_time)
  let needs_review := decide (mastery_level < 8/10)
  let ease_factor :=
    if 8/10 ≤ mastery_level then min (p.ease_factor * (11/10)) 3
    else max (p.ease_factor * (9/10)) 1
  let interval :=
    if 8/10 ≤ mastery_level then max (p.interval * ease_factor) 1
    else 1
  ⟨times_practiced, times_correct, consecutive_failures, mastery_level,
    average_response_time, is_problem_word, needs_review, ease_factor, interval⟩

/-! ## MasteryTracker: `SpacedRepetitionManager.update_word_performance`
(src/utils/spaced_repetition.py). -/

/-- The per-word JSON record of `SpacedRepetitionManager`
(`next_review` / `last_seen` timestamps omitted). -/
structure WordData where
  easiness_factor : ℚ
  repetition : ℕ
  interval : ℤ
  total_attempts : ℕ
  correct_attempts : ℕ
  mastery_level : ℤ
deriving Repr, DecidableEq

/-- Initial record created for a word never seen before. -/
def freshWordData : WordData :=
  ⟨5/2, 0, 1, 0, 0, 0⟩

/-- `SpacedRepetitionManager.update_word_performance`
(src/utils/spaced_repetition.py), acting on the in-memory record; file
I/O and timestamps are omitted. -/
def updateWordPerformance (w : WordData) (correct : Bool) : WordData :=
  let total_attempts := w.total_attempts + 1
  if correct then
    let correct_attempts := w.correct_attempts + 1
    let repetition := w.repetition + 1
    let interval : ℤ :=
      if repetition = 1 then 1
      else if repetition = 2 then 6
      else pyInt ((w.interval : ℚ) * w.easiness_factor)
    let accuracy : ℚ := (correct_attempts : ℚ) / (total_attempts : ℚ)
    let quality : ℤ := min 5 (max 0 (pyInt (accuracy * 5)))
    let ef := w.easiness_factor +
      ((1/10) - (5 - (quality : ℚ)) * ((8/100) + (5 - (quality : ℚ)) * (2/100)))
    let easiness_factor := max (13/10) ef
    let mastery_level :=
      if 9/10 ≤ accuracy ∧ 3 ≤ repetition then min 5 (w.mastery_level + 1)
      else w.mastery_level
    ⟨easiness_factor, repetition, interval, total_attempts, correct_attempts,
      mastery_level⟩
  else
    ⟨max (13/10) (w.easiness_factor - (2/10)), 0, 1, total_attempts,
      w.correct_attempts, max 0 (w.mastery_level - 1)⟩

/-! ## MasteryTracker: `AdaptivePracticeEngine._update_word_mastery`
(src/memorization/practice_service.py). -/

/-- The `WordProgress` fields touched by
`AdaptivePracticeEngine._update_word_mastery`. -/
structure PSWordProgress where
  times_practiced : ℕ
  times_correct : ℕ
  mastery_level : ℚ
  ease_factor : ℚ
deriving Repr, DecidableEq

/-- `AdaptivePracticeEngine._update_word_mastery`
(src/memorization/practice_service.py), on the in-memory record; the
database get-or-create and save are omitted. -/
def updateWordMasteryPS (p : PSWordProgress) (success : Bool) : PSWordProgress :=
  let times_practiced := p.times_practiced + 1
  let times_correct := if success then p.times_correct + 1 else p.times_correct
  let practice_factor : ℚ := min ((times_practiced : ℚ) / 10) 1
  let mastery_level :=
    if success then
      min (p.mastery_level + (1/10) * (1 - p.mastery_level) * practice_factor) 1
    else
      max (p.mastery_level - (5/100) * p.mastery_level) 0
  let ease_factor :=
    if success ∧ 8/10 < mastery_level then min (p.ease_factor * (11/10)) 3
    else if ¬ success then max (p.ease_factor * (9/10)) 1
    else p.ease_factor
  ⟨times_practiced, times_correct, mastery_level, ease_factor⟩

/-! ## SessionStateMachine (word mode): `AdaptivePracticeEngine`
(src/memorization/practice_service.py). -/

/-- `PracticeWordState` (src/memorization/practice_service.py); the
`time_stuck` timing field is omitted (wall clock). -/
structure PracticeWordState where
  word : String
  index : ℕ
  mastery_level : ℚ
  is_visible : Bool
  is_current : Bool
  is_completed : Bool
  hint_level : ℕ
  attempts : ℕ
  needs_hint : Bool
deriving Repr, DecidableEq, Inhabited

/-- The engine fields consulted by `process_speech_input` /
`advance_to_word` / `apply_hint` / `_update_word_mastery`.
`user_is_authenticated` models `self.user.is_authenticated`;
`word_progress` models the persisted `WordProgress` rows for this
(user, text) pair, keyed by `word_index` (one row per key by the
`unique_together` constraint of the model). -/
structure EngineState where
  words : List PracticeWordState
  current_word_index : ℕ
  user_is_authenticated : Bool
  word_progress : List (ℕ × PSWordProgress)
deriving Repr, DecidableEq, Inhabited

/-- The Python regex substitution used by `process_speech_input`: keep
only word characters (ASCII model of the word class: alphanumerics and
underscore), apostrophes and hyphens, deleting everything else. -/
def cleanWord (s : String) : String :=
  String.mk (s.toList.filter (fun c =>
    c.isAlphanum || c = '_' || c = '\'' || c = '-'))

/-- `AdaptivePracticeEngine.advance_to_word`
(src/memorization/practice_service.py).  Returns the new state and
whether the session completed instead of advancing
(`_complete_session` computes statistics only; it leaves `words` and
`current_word_index` unchanged). -/
def advanceToWord (st : EngineState) (word_index : ℕ) : EngineState × Bool :=
  if st.words.length ≤ word_index then
    (st, true)
  else
    let words1 :=
      if st.current_word_index < st.words.length then
        st.words.modify
          (fun w => { w with is_current := false, is_completed := true })
          st.current_word_index
      else st.words
    let words2 := words1.modify
      (fun w => { w with is_current := true, hint_level := 0, needs_hint := false })
      word_index
    ({ st with words := words2, current_word_index := word_index }, false)

/-- `AdaptivePracticeEngine.apply_hint` with the auto hint type
(src/memorization/practice_service.py). -/
def applyHintAuto (st : EngineState) : EngineState :=
  if st.words.length ≤ st.current_word_index then st
  else
    { st with words :=
        (st.words.modify
          (fun w => { w with
            hint_level := min (w.hint_level + 1) 3,
            needs_hint := false,
            attempts := w.attempts + 1 })
          st.current_word_index) }

/-- `WordProgress.objects.get_or_create(...)` inside
`_update_word_mastery`: the stored row for the word index, or a fresh
record with the field defaults (`mastery_level` 0, counts 0,
`ease_factor` 2.5). -/
def getOrCreateProgress (progress : List (ℕ × PSWordProgress)) (idx : ℕ) :
    PSWordProgress :=
  match progress.find? (fun x => x.1 = idx) with
  | some x => x.2
  | none => ⟨0, 0, 0, 5/2⟩

/-- The `word_progress.save()` write: store the updated row under its
word index. -/
def saveProgress (progress : List (ℕ × PSWordProgress)) (idx : ℕ)
    (wp : PSWordProgress) : List (ℕ × PSWordProgress) :=
  match progress.find? (fun x => x.1 = idx) with
  | some _ => progress.map (fun x => if x.1 = idx then (idx, wp) else x)
  | none => progress ++ [(idx, wp)]

/-- `AdaptivePracticeEngine._update_word_mastery`
(src/memorization/practice_service.py) as it acts on the engine: a
no-op for anonymous users; otherwise it updates the persisted row via
`updateWordMasteryPS` and writes the new mastery level back into the
word state at list position `pos` (the word object the caller passed
in), per `word_state.mastery_level = word_progress.mastery_level`. -/
def updateWordMasteryEngine (st : EngineState) (pos : ℕ) (success : Bool) :
    EngineState :=
  if st.user_is_authenticated = false then st
  else
    let word_state := st.words.getD pos default
    let wp := updateWordMasteryPS
      (getOrCreateProgress st.word_progress word_state.index) success
    { st with
      word_progress := saveProgress st.word_progress word_state.index wp,
      words :=
        (st.words.modify
          (fun w => { w with mastery_level := wp.mastery_level }) pos) }

/-- The parts of the `process_speech_input` result dictionary the claims
are about.  `outcome` records the `(word position, success)` pair passed
to `_update_word_mastery`. -/
structure SpeechInputResult where
  success : Bool
  word_found : Bool
  hint_applied : Bool
  session_complete : Bool
  outcome : Option (ℕ × Bool)
deriving Repr, DecidableEq

/-- The matching test inside `process_speech_input`: some whitespace
token of the lowercased spoken text, cleaned, equals the cleaned
lowercased expected word. -/
def spokenContainsWord (spoken_text expected_word : String) : Bool :=
  (pySplit (pyLower spoken_text)).any
    (fun sw => cleanWord sw = cleanWord (pyLower expected_word))

/-- `AdaptivePracticeEngine.process_speech_input`
(src/memorization/practice_service.py).  `_update_word_mastery` is
applied to the state (including its mastery write-back into the current
word); `outcome` additionally records the `(word position, success)`
pair it was called with; display text is omitted. -/
def processSpeechInput (st : EngineState) (spoken_text : String) :
    EngineState × SpeechInputResult :=
  if st.words.length ≤ st.current_word_index then
    (st, ⟨false, false, false, false, none⟩)
  else
    let current_word := st.words.getD st.current_word_index default
    let word_found := spokenContainsWord spoken_text current_word.word
    if word_found then
      let st1 := updateWordMasteryEngine st st.current_word_index true
      let adv := advanceToWord st1 (st1.current_word_index + 1)
      (adv.1, ⟨true, true, false, adv.2, some (st.current_word_index, true)⟩)
    else
      let st1 : EngineState :=
        { st with words :=
            (st.words.modify
              (fun w => { w with attempts := w.attempts + 1 })
              st.current_word_index) }
      let st2 := updateWordMasteryEngine st1 st1.current_word_index false
      let attempts := (st2.words.getD st2.current_word_index default).attempts
      if 2 ≤ attempts then
        (applyHintAuto st2,
          ⟨false, false, true, false, some (st.current_word_index, false)⟩)
      else
        (st2, ⟨false, false, false, false, some (st.current_word_index, false)⟩)

/-! ## DisplayMasker: `WordRevealSession.calculate_next_reveal_set`
(src/memorization/models.py). -/

/-- The `WordRevealSession` fields consulted by
`calculate_next_reveal_set`. -/
structure RevealSession where
  reveal_strategy : String
  reveal_percentage : ℚ
  increment_percentage : ℚ
  current_round : ℕ
  currently_visible_words : List ℕ
  mastered_words : List ℕ
  problem_words : List ℕ
deriving Repr, DecidableEq

/-- Mastery lookup `mastery_map.get(i, 0.0)` over the queried
`WordProgress` rows, modelled as an association list. -/
def masteryGetD (mastery_map : List (ℕ × ℚ)) (i : ℕ) : ℚ :=
  ((mastery_map.find? (fun x => x.1 = i)).map (·.2)).getD 0

/-- `WordRevealSession.calculate_next_reveal_set`
(src/memorization/models.py).  `content` is `self.text.content`;
`mastery_map` models the queried per-word mastery rows. -/
def calculateNextRevealSet (s : RevealSession) (content : String)
    (mastery_map : List (ℕ × ℚ)) : List ℕ :=
  let words := pySplit content
  let total_words := words.length
  let visible_words : List ℕ :=
    if s.reveal_strategy = "progressive" then
      let target_visible : ℤ :=
        min (pyInt ((total_words : ℚ) *
          (s.reveal_percentage +
            ((s.current_round : ℚ) - 1) * s.increment_percentage)))
          (total_words : ℤ)
      let non_mastered :=
        (List.range total_words).filter (fun i => ¬ s.mastered_words.contains i)
      s.currently_visible_words ++
        pyTake non_mastered (target_visible - (s.currently_visible_words.length : ℤ))
    else if s.reveal_strategy = "mastery_based" then
      (List.range total_words).filter (fun i =>
        decide (masteryGetD mastery_map i < 7/10) ||
        s.problem_words.contains i ||
        (s.currently_visible_words.contains i &&
          decide (masteryGetD mastery_map i < 9/10)))
    else
      s.currently_visible_words
  pyTake visible_words (pyInt ((total_words : ℚ) * (8/10)))

/-! ## SpeechDiffScorer: `PhraseBasedSpeechAnalyzer._generate_word_diff`
(src/memorization/ai_speech_service.py).

The source delegates the alignment to `difflib.SequenceMatcher`.  The
embedding below follows the documented behaviour of the standard library
(Ratcliff–Obershelp): `find_longest_match` returns, among all maximal
matching blocks, the longest one; among those, the one starting earliest
in `a`; among those, the one starting earliest in `b`.  Junk handling is
not modelled: with no junk argument, difflib treats elements as junk only
through the autojunk heuristic, which has an effect only when the second
sequence has at least 200 elements and even then cannot change the result
for the inputs considered here. -/

/-- Length of the longest common run at the heads of two lists. -/
def matchLen : List String → List String → ℕ
  | x :: xs, y :: ys => if x = y then matchLen xs ys + 1 else 0
  | _, _ => 0

/-- Length of the common run of `a` at `i` and `b` at `j`, confined to
the windows `[i, ahi)` and `[j, bhi)`. -/
def runLen (a b : List String) (i j ahi bhi : ℕ) : ℕ :=
  matchLen ((a.drop i).take (ahi - i)) ((b.drop j).take (bhi - j))

/-- All start pairs `(i, j)` scanned by `find_longest_match`, in scan
order: `i` ascending over `[alo, ahi)`, `j` ascending over `[blo, bhi)`. -/
def flmCandidates (alo ahi blo bhi : ℕ) : List (ℕ × ℕ) :=
  ((List.range' alo (ahi - alo)).map
    (fun i => (List.range' blo (bhi - blo)).map (fun j => (i, j)))).flatten

/-- The `if k > bestsize: besti, bestj, bestsize = i, j, k` update of
`find_longest_match` (strict improvement keeps the earliest start). -/
def flmStep (a b : List String) (ahi bhi : ℕ) (best : ℕ × ℕ × ℕ)
    (ij : ℕ × ℕ) : ℕ × ℕ × ℕ :=
  if best.2.2 < runLen a b ij.1 ij.2 ahi bhi then
    (ij.1, ij.2, runLen a b ij.1 ij.2 ahi bhi)
  else best

/-- `SequenceMatcher.find_longest_match` on the windows
`a[alo:ahi]`, `b[blo:bhi]`: the longest matching run, ties broken by the
earliest start in `a`, then in `b` (strict improvement in scan order). -/
def findLongestMatch (a b : List String) (alo ahi blo bhi : ℕ) : ℕ × ℕ × ℕ :=
  (flmCandidates alo ahi blo bhi).foldl (flmStep a b ahi bhi) (alo, blo, 0)

/-- The recursive block collection of `get_matching_blocks`, fuelled:
each recursive call strictly shrinks `(ahi - alo) + (bhi - blo)`, which is
at most `a.length + b.length` at the top call, so the fuel below never
runs out. -/
def matchingBlocksAux (a b : List String) :
    ℕ → ℕ → ℕ → ℕ → ℕ → List (ℕ × ℕ × ℕ)
  | 0, _, _, _, _ => []
  | fuel + 1, alo, ahi, blo, bhi =>
    let t := findLongestMatch a b alo ahi blo bhi
    if 0 < t.2.2 then
      matchingBlocksAux a b fuel alo t.1 blo t.2.1 ++
        t :: matchingBlocksAux a b fuel (t.1 + t.2.2) ahi (t.2.1 + t.2.2) bhi
    else []

/-- The raw (unmerged) matching blocks of the two sequences. -/
def matchingBlocks (a b : List String) : List (ℕ × ℕ × ℕ) :=
  matchingBlocksAux a b (a.length + b.length + 1) 0 a.length 0 b.length

/-- The adjacent-block merging pass of `get_matching_blocks`. -/
def mergeAdjAux : (ℕ × ℕ × ℕ) → List (ℕ × ℕ × ℕ) → List (ℕ × ℕ × ℕ)
  | acc, [] => if 0 < acc.2.2 then [acc] else []
  | acc, blk :: rest =>
    if acc.1 + acc.2.2 = blk.1 ∧ acc.2.1 + acc.2.2 = blk.2.1 then
      mergeAdjAux (acc.1, acc.2.1, acc.2.2 + blk.2.2) rest
    else
      (if 0 < acc.2.2 then [acc] else []) ++ mergeAdjAux blk rest

/-- `SequenceMatcher.get_matching_blocks`: merged blocks followed by the
`(len(a), len(b), 0)` sentinel. -/
def getMatchingBlocks (a b : List String) : List (ℕ × ℕ × ℕ) :=
  mergeAdjAux (0, 0, 0) (matchingBlocks a b) ++ [(a.length, b.length, 0)]

/-- The opcode tags of `SequenceMatcher.get_opcodes`. -/
inductive Tag
  | equal
  | replace
  | delete
  | insert
deriving Repr, DecidableEq

/-- One `(tag, i1, i2, j1, j2)` opcode. -/
structure Opcode where
  tag : Tag
  i1 : ℕ
  i2 : ℕ
  j1 : ℕ
  j2 : ℕ
deriving Repr, DecidableEq

/-- The opcode construction loop of `SequenceMatcher.get_opcodes`. -/
def opcodesAux : ℕ → ℕ → List (ℕ × ℕ × ℕ) → List Opcode
  | _, _, [] => []
  | i, j, (ai, bj, size) :: rest =>
    let gap : List Opcode :=
      if i < ai ∧ j < bj then [⟨Tag.replace, i, ai, j, bj⟩]
      else if i < ai then [⟨Tag.delete, i, ai, j, bj⟩]
      else if j < bj then [⟨Tag.insert, i, ai, j, bj⟩]
      else []
    gap ++ (if 0 < size then [⟨Tag.equal, ai, ai + size, bj, bj + size⟩] else []) ++
      opcodesAux (ai + size) (bj + size) rest

/-- `SequenceMatcher.get_opcodes`. -/
def getOpcodes (a b : List String) : List Opcode :=
  opcodesAux 0 0 (getMatchingBlocks a b)

/-- `PhraseBasedSpeechAnalyzer._generate_word_diff` on the two token
lists (the source computes them by `.split()` from the spoken and
expected strings; the matcher is built with `a = expected_words`,
`b = spoken_words`). -/
def generateWordDiffTokens (spoken_words expected_words : List String) :
    List DiffEntry :=
  ((getOpcodes expected_words spoken_words).map (fun op =>
    match op.tag with
    | Tag.equal =>
      (List.range' op.i1 (op.i2 - op.i1)).map (fun (i : ℕ) =>
        ⟨(i : ℤ), expected_words.getD i "", expected_words.getD i "",
          "correct", "correct"⟩)
    | Tag.replace =>
      (List.range' op.i1 (op.i2 - op.i1)).map (fun (i : ℕ) =>
        ⟨(i : ℤ), expected_words.getD i "",
          if op.j1 + (i - op.i1) < spoken_words.length then
            spoken_words.getD (op.j1 + (i - op.i1)) ""
          else "[MISSING]",
          "substitution", "error"⟩)
    | Tag.delete =>
      (List.range' op.i1 (op.i2 - op.i1)).map (fun (i : ℕ) =>
        ⟨(i : ℤ), expected_words.getD i "", "[MISSING]", "missing", "error"⟩)
    | Tag.insert =>
      (List.range' op.j1 (op.j2 - op.j1)).map (fun (j : ℕ) =>
        ⟨(expected_words.length : ℤ) + (j : ℤ) - (op.j1 : ℤ), "[EXTRA]",
          spoken_words.getD j "", "extra", "error"⟩))).flatten

/-- `PhraseBasedSpeechAnalyzer._generate_word_diff` on strings. -/
def generateWordDiff (spoken expected : String) : List DiffEntry :=
  generateWordDiffTokens (pySplit spoken) (pySplit expected)

/-- `PhraseBasedSpeechAnalyzer._calculate_phrase_accuracy`
(src/memorization/ai_speech_service.py). -/
def calculatePhraseAccuracy (word_diff : List DiffEntry) : ℚ :=
  if word_diff = [] then 0
  else
    let correct_words := (word_diff.filter (fun d => d.status = "correct")).length
    let total_words := (word_diff.filter (fun d => d.dtype ≠ "extra")).length
    (correct_words : ℚ) / ((max total_words 1 : ℕ) : ℚ) * 100

/-! ## Phrase-mode session step
(`PhraseBasedPracticeEngine` in src/memorization/ai_speech_service.py and
the advancement override in `process_phrase_speech` of
src/memorization/ai_practice_views.py). -/

/-- One entry of `missed_words_bank` (the wall-clock `timestamp` field is
omitted). -/
structure BankItem where
  word : String
  context : String
  missed_count : ℕ
deriving Repr, DecidableEq

/-- The `for item in bank: if item.word == w: item.missed_count += 1; break`
loop of `add_missed_words`. -/
def incFirstBank : List BankItem → String → List BankItem
  | [], _ => []
  | it :: rest, w =>
    if it.word = w then { it with missed_count := it.missed_count + 1 } :: rest
    else it :: incFirstBank rest w

/-- `PhraseBasedPracticeEngine.add_missed_words`
(src/memorization/ai_speech_service.py). -/
def addMissedWords (bank : List BankItem) (ws : List String) (ctx : String) :
    List BankItem :=
  ws.foldl (fun b w =>
    if (b.map (·.word)).contains w then incFirstBank b w
    else b ++ [⟨w, ctx, 1⟩]) bank

/-- Result of `get_practice_phrase` (the `progress_percentage` display
value is omitted). -/
structure PhraseInfo where
  phrase_text : String
  start_position : ℕ
  end_position : ℕ
  word_count : ℕ
  is_complete : Bool
deriving Repr, DecidableEq

/-- `PhraseBasedPracticeEngine.get_practice_phrase`
(src/memorization/ai_speech_service.py). -/
def getPracticePhrase (text : String) (start_pos phrase_length : ℕ) :
    PhraseInfo :=
  let words := pySplit text
  let end_pos := min (start_pos + phrase_length) words.length
  let phrase_words := (words.drop start_pos).take (end_pos - start_pos)
  ⟨String.intercalate " " phrase_words, start_pos, end_pos,
    phrase_words.length, decide (words.length ≤ end_pos)⟩

/-- `PhraseBasedPracticeEngine.increment_attempt_count`
(src/memorization/ai_speech_service.py); the per-phrase dictionary is an
association list. -/
def incrementAttemptCount (counts : List (String × ℕ)) (phrase_id : String) :
    List (String × ℕ) × ℕ :=
  match counts.find? (fun x => x.1 = phrase_id) with
  | some x =>
    (counts.map (fun y => if y.1 = phrase_id then (y.1, y.2 + 1) else y), x.2 + 1)
  | none => (counts ++ [(phrase_id, 1)], 1)

/-- The scored-attempt fields of the `process_phrase_speech` result that
the view consults. -/
structure PhraseResult where
  phrase_correct : Bool
  accuracy : ℚ
  missed_words : List String
deriving Repr, DecidableEq

/-- The cached session dictionary fields the view step touches. -/
structure PhraseSessionData where
  current_position : ℕ
  phrase_length : ℕ
  phrases_completed : ℕ
  total_attempts : ℕ
  attempt_counts : List (String × ℕ)
  missed_words_bank : List BankItem
deriving Repr, DecidableEq

/-- Outcome of one view step: the updated session plus the advancement
decision. -/
structure PhraseStepOutcome where
  session : PhraseSessionData
  should_advance : Bool
  forced_partial_progression : Bool
  attempt_count : ℕ
deriving Repr, DecidableEq

/-- `phrase_id = f"..."` in the view: position, underscore, first 20
characters of the phrase text. -/
def phraseId (position : ℕ) (phrase_text : String) : String :=
  toString position ++ "_" ++ phrase_text.take 20

/-- The pure state-machine part of `process_phrase_speech` in
src/memorization/ai_practice_views.py: count the attempt, override the
advancement decision on partial success or on the third attempt, record
missed words into the review bank, and advance the position. -/
def processPhraseView (sd0 : PhraseSessionData) (text_content : String)
    (result : PhraseResult) : PhraseStepOutcome :=
  let current_phrase := getPracticePhrase text_content sd0.current_position
    sd0.phrase_length
  let sd1 := { sd0 with total_attempts := sd0.total_attempts + 1 }
  let pid := phraseId sd1.current_position current_phrase.phrase_text
  let ica := incrementAttemptCount sd1.attempt_counts pid
  let attempt_count := ica.2
  let sd2 := { sd1 with attempt_counts := ica.1 }
  let forced := ¬ result.phrase_correct ∧
    ((60 ≤ result.accuracy ∧ result.missed_words.length ≤ 2) ∨
      3 ≤ attempt_count)
  let should_advance := result.phrase_correct ∨ forced
  let bank :=
    if forced ∧ result.missed_words ≠ [] then
      addMissedWords sd2.missed_words_bank result.missed_words
        current_phrase.phrase_text
    else sd2.missed_words_bank
  let sd3 := { sd2 with missed_words_bank := bank }
  let sd4 :=
    if should_advance then
      { sd3 with
        phrases_completed := sd3.phrases_completed + 1,
        current_position := current_phrase.end_position }
    else sd3
  ⟨sd4, should_advance, forced, attempt_count⟩

/-- `PhraseBasedPracticeEngine.should_allow_skip`
(src/memorization/ai_speech_service.py). -/
def shouldAllowSkip (attempt_count : ℕ) : Bool :=
  3 ≤ attempt_count

/-! ## PatternDetector: `PracticePatternDetector`
(src/memorization/enhanced_practice_service.py).

The `PracticePattern` rows for one (user, text) pair are modelled as a
list of records; `user` and `text` are therefore implicit.  Django model
`start_word_index` is a positive-integer column, but the detector code
computes `word_index - 1`, which can be negative in Python, so the index
is embedded as ℤ. -/

/-- One entry of the word_performance list of the session data. -/
structure WordPerf where
  attempts : ℕ
  response_time : ℚ
deriving Repr, DecidableEq, Inhabited

/-- The `PracticePattern` fields the detectors read or write. -/
structure PatternRec where
  pattern_type : String
  start_word_index : ℤ
  end_word_index : ℤ
  difficulty_score : ℚ
  frequency_encountered : ℕ
  context_words : List String
deriving Repr, DecidableEq

/-- Database lookup by the `unique_together` key
`(user, text, pattern_type, start_word_index)` (user and text fixed). -/
def findPattern (store : List PatternRec) (t : String) (s : ℤ) :
    Option PatternRec :=
  store.find? (fun p => decide (p.pattern_type = t ∧ p.start_word_index = s))

/-- Replace the (unique) row with the given key. -/
def replaceFirstPattern : List PatternRec → String → ℤ → PatternRec →
    List PatternRec
  | [], _, _, _ => []
  | q :: rest, t, s, newp =>
    if q.pattern_type = t ∧ q.start_word_index = s then newp :: rest
    else q :: replaceFirstPattern rest t s newp

/-- `PracticePattern.objects.get_or_create(...)` followed by
`if not created: pattern.frequency_encountered += 1; pattern.save()` —
the upsert step shared by every detector. -/
def upsertPattern (store : List PatternRec) (d : PatternRec) :
    List PatternRec × PatternRec :=
  match findPattern store d.pattern_type d.start_word_index with
  | some p =>
    let p2 := { p with frequency_encountered := p.frequency_encountered + 1 }
    (replaceFirstPattern store d.pattern_type d.start_word_index p2, p2)
  | none => (store ++ [d], d)

/-- Upsert each default record in order, collecting the resulting rows
(the per-detector `patterns.append(pattern)` list). -/
def upsertAll (store : List PatternRec) (ds : List PatternRec) :
    List PatternRec × List PatternRec :=
  ds.foldl (fun acc d =>
    let r := upsertPattern acc.1 d
    (r.1, acc.2 ++ [r.2])) (store, [])

/-- The difficult-run scan of `_detect_word_sequences`: maximal runs of
at least 3 consecutive indices whose entry has more than 2 attempts or a
response time above 3 seconds. -/
def difficultRuns (perf : List WordPerf) : List (List ℕ) :=
  let r := perf.enum.foldl
    (fun (acc : List (List ℕ) × List ℕ) iw =>
      if 2 < iw.2.attempts ∨ 3 < iw.2.response_time then
        (acc.1, acc.2 ++ [iw.1])
      else if 3 ≤ acc.2.length then (acc.1 ++ [acc.2], [])
      else (acc.1, []))
    ([], [])
  if 3 ≤ r.2.length then r.1 ++ [r.2] else r.1

/-- `PracticePatternDetector._calculate_sequence_difficulty`. -/
def calcSequenceDifficulty (seq : List ℕ) (perf : List WordPerf) : ℚ :=
  let total_attempts : ℕ :=
    (seq.map (fun i => if i < perf.length then (perf.getD i default).attempts
      else 0)).sum
  let total_time : ℚ :=
    (seq.map (fun i => if i < perf.length then
      (perf.getD i default).response_time else 0)).sum
  let attempt_score := min ((total_attempts : ℚ) / ((seq.length : ℚ) * 3)) 1
  let time_score := min (total_time / ((seq.length : ℚ) * 3)) 1
  (attempt_score + time_score) / 2

/-- The default rows built by `_detect_word_sequences`; looking up
`self.words[i]` for the context words raises `IndexError` when a run
index falls outside the text, which is the detector failure modelled by
the `Except` error. -/
def wordSequenceDefaults (words : List String) (perf : List WordPerf) :
    Except String (List PatternRec) :=
  (difficultRuns perf).mapM (fun seq => do
    let ctx ← seq.mapM (fun i =>
      match words.get? i with
      | some w => Except.ok w
      | none => Except.error "IndexError: list index out of range")
    Except.ok (⟨"word_sequence", (seq.headD 0 : ℤ), (seq.getLastD 0 : ℤ),
      calcSequenceDifficulty seq perf, 1, ctx⟩ : PatternRec))

/-- `PracticePatternDetector._detect_word_sequences`. -/
def detectWordSequences (words : List String) (perf : List WordPerf)
    (store : List PatternRec) :
    Except String (List PatternRec × List PatternRec) :=
  match wordSequenceDefaults words perf with
  | Except.error e => Except.error e
  | Except.ok ds => Except.ok (upsertAll store ds)

/-- The sentence-start word indices of `_detect_sentence_starts`:
sentences split on `.!?`, empty pieces contributing no words. -/
def sentenceStartIndices (content : String) : List ℕ :=
  ((pyCharSplit content (fun c => c = '.' || c = '!' || c = '?')).foldl
    (fun (acc : List ℕ × ℕ) sentence =>
      let ws := pySplit sentence
      if ws ≠ [] then (acc.1 ++ [acc.2], acc.2 + ws.length)
      else (acc.1, acc.2 + ws.length))
    ([], 0)).1

/-- The default rows built by `_detect_sentence_starts`. -/
def sentenceStartDefaults (content : String) (perf : List WordPerf) :
    List PatternRec :=
  ((sentenceStartIndices content).filter
    (fun s => decide (s < perf.length) &&
      decide (2 < (perf.getD s default).attempts))).map
    (fun (s : ℕ) => ⟨"sentence_start", (s : ℤ), (s : ℤ),
      min (((perf.getD s default).attempts : ℚ) / 5) 1, 1, []⟩)

/-- `PracticePatternDetector._detect_sentence_starts`. -/
def detectSentenceStarts (content : String) (perf : List WordPerf)
    (store : List PatternRec) : List PatternRec × List PatternRec :=
  upsertAll store (sentenceStartDefaults content perf)

/-- The default rows built by `_detect_paragraph_transitions` (natural
subtraction models Python `max(0, word_index - 2)`). -/
def paragraphTransitionDefaults (content : String) (perf : List WordPerf) :
    List PatternRec :=
  let words := pySplit content
  ((content.splitOn "\n\n").dropLast.foldl
    (fun (acc : List PatternRec × ℕ) para =>
      let wi := acc.2 + (pySplit para).length
      let lo := wi - 2
      let hi := min words.length (wi + 2)
      let dsum : ℕ := ((List.range' lo (hi - lo)).map
        (fun idx => if idx < perf.length then (perf.getD idx default).attempts
          else 0)).sum
      if 6 < dsum then
        (acc.1 ++ [⟨"paragraph_transition", (wi : ℤ) - 1, (wi : ℤ) + 1,
          min ((dsum : ℚ) / 10) 1, 1, []⟩], wi)
      else (acc.1, wi))
    ([], 0)).1

/-- `PracticePatternDetector._detect_paragraph_transitions`. -/
def detectParagraphTransitions (content : String) (perf : List WordPerf)
    (store : List PatternRec) : List PatternRec × List PatternRec :=
  upsertAll store (paragraphTransitionDefaults content perf)

/-- The default rows built by `_detect_long_words`. -/
def longWordsDefaults (words : List String) (perf : List WordPerf) :
    List PatternRec :=
  words.enum.filterMap (fun iw =>
    if 8 ≤ iw.2.length ∧ iw.1 < perf.length ∧
        (2 < (perf.getD iw.1 default).attempts ∨
          4 < (perf.getD iw.1 default).response_time) then
      some ⟨"long_words", (iw.1 : ℤ), (iw.1 : ℤ),
        min (((perf.getD iw.1 default).attempts : ℚ) / 4) 1, 1, [iw.2]⟩
    else none)

/-- `PracticePatternDetector._detect_long_words`. -/
def detectLongWords (words : List String) (perf : List WordPerf)
    (store : List PatternRec) : List PatternRec × List PatternRec :=
  upsertAll store (longWordsDefaults words perf)

/-- The grouping key of `_detect_similar_words`: word length and
lowercased first letter. -/
def similarKey (w : String) : ℕ × String :=
  (w.length, pyLower (w.take 1))

/-- The insertion-ordered groups of indexed words sharing a key. -/
def similarGroups (words : List String) : List (List (ℕ × String)) :=
  ((words.map similarKey).dedup).map
    (fun k => words.enum.filter (fun iw => similarKey iw.2 = k))

/-- The default rows built by `_detect_similar_words`. -/
def similarWordsDefaults (words : List String) (perf : List WordPerf) :
    List PatternRec :=
  (similarGroups words).filterMap (fun group =>
    if 2 ≤ group.length then
      let difficult := group.filter
        (fun iw => decide (iw.1 < perf.length) &&
          decide (2 < (perf.getD iw.1 default).attempts))
      if 2 ≤ difficult.length then
        some ⟨"similar_words", (((difficult.map (·.1)).min?).getD 0 : ℤ),
          (((difficult.map (·.1)).max?).getD 0 : ℤ),
          (difficult.length : ℚ) / (group.length : ℚ), 1,
          difficult.map (·.2)⟩
      else none
    else none)

/-- `PracticePatternDetector._detect_similar_words`. -/
def detectSimilarWords (words : List String) (perf : List WordPerf)
    (store : List PatternRec) : List PatternRec × List PatternRec :=
  upsertAll store (similarWordsDefaults words perf)

/-- `PracticePatternDetector.detect_patterns`
(src/memorization/enhanced_practice_service.py): the five detectors run
in sequence with no exception isolation; `content` is
`self.text.content` and `self.words = text.content.split()`. -/
def detectPatterns (content : String) (perf : List WordPerf)
    (store : List PatternRec) :
    Except String (List PatternRec × List PatternRec) :=
  let words := pySplit content
  match detectWordSequences words perf store with
  | Except.error e => Except.error e
  | Except.ok r1 =>
    let r2 := detectSentenceStarts content perf r1.1
    let r3 := detectParagraphTransitions content perf r2.1
    let r4 := detectLongWords words perf r3.1
    let r5 := detectSimilarWords words perf r4.1
    Except.ok (r5.1, r1.2 ++ r2.2 ++ r3.2 ++ r4.2 ++ r5.2)

/-- Count of stored rows with a given upsert key. -/
def patKeyCount (store : List PatternRec) (t : String) (s : ℤ) : ℕ :=
  store.countP (fun p => decide (p.pattern_type = t ∧ p.start_word_index = s))

/-- Key-uniqueness invariant of the pattern store (the database
`unique_together` constraint on
`(user, text, pattern_type, start_word_index)`). -/
def PatStoreInv (store : List PatternRec) : Prop :=
  ∀ t s, patKeyCount store t s ≤ 1

/-- The words currently recorded in the review bank. -/
def bankWords (bank : List BankItem) : List String :=
  bank.map (·.word)

/-! ## Spec-side definitions for refinement comparisons.  These follow
the claim wording, not the source, and exist only to be compared against
the source-derived definitions above. -/

/-- The quality term exactly as the claim words it:
`quality = clamp(round(accuracy*5), 0, 5)`. -/
def claimQuality (accuracy : ℚ) : ℤ :=
  min 5 (max 0 (round (accuracy * 5)))

/-- The ease-factor update exactly as the claim words it:
`ease_factor += 0.1 - (5-quality)*(0.08 + (5-quality)*0.02)`, floored at
1.3, with the claim quality. -/
def claimEaseUpdate (ef accuracy : ℚ) : ℚ :=
  max (13/10) (ef + ((1/10) -
    (5 - (claimQuality accuracy : ℚ)) *
      ((8/100) + (5 - (claimQuality accuracy : ℚ)) * (2/100))))

/-! # Theorems -/

/-- Helper: slicing the empty list yields the empty list. -/
theorem pyTake_nil (k : ℤ) : pyTake ([] : List α) k = [] := by
  simp [pyTake]

/-- C1: For every scored phrase attempt, the advancement decision follows
the ordered policy, first match wins: accuracy ≥ 95 advances as
"perfect"; otherwise accuracy ≥ 80 advances as "good" with the error
words recorded as missed words; otherwise accuracy ≥ 60 with at most 2
error words and correct words ≥ 0.6 times the expected word count
advances as "partial, skip missed"; otherwise accuracy ≥ 40 does not
advance and requests a retry; otherwise it does not advance and requests
a retry (as the distinguished "retry_needed" outcome). -/
theorem c1_phrase_advancement_policy (wd : List DiffEntry) (acc : ℚ)
    (phrase : String) :
    (95 ≤ acc →
      determineAdvancement wd acc phrase = ⟨true, "perfect", [], false⟩) ∧
    (¬ 95 ≤ acc → 80 ≤ acc →
      determineAdvancement wd acc phrase =
        ⟨true, "good",
          (wd.filter (fun d => d.status = "error")).map (·.expected_word),
          false⟩) ∧
    (¬ 95 ≤ acc → ¬ 80 ≤ acc → 60 ≤ acc →
      (wd.filter (fun d => d.status = "error")).length ≤ 2 →
      ((pySplit phrase).length : ℚ) * (6/10) ≤
        ((wd.filter (fun d => d.status = "correct")).length : ℚ) →
      determineAdvancement wd acc phrase =
        ⟨true, "partial_with_skips",
          (wd.filter (fun d => d.status = "error")).map (·.expected_word),
          false⟩) ∧
    (¬ 95 ≤ acc → ¬ 80 ≤ acc →
      ¬ (60 ≤ acc ∧ (wd.filter (fun d => d.status = "error")).length ≤ 2 ∧
          ((pySplit phrase).length : ℚ) * (6/10) ≤
            ((wd.filter (fun d => d.status = "correct")).length : ℚ)) →
      40 ≤ acc →
      (determineAdvancement wd acc phrase).should_advance = false ∧
        (determineAdvancement wd acc phrase).needs_retry = true) ∧
    (¬ 40 ≤ acc →
      (determineAdvancement wd acc phrase).should_advance = false ∧
        (determineAdvancement wd acc phrase).needs_retry = true ∧
        (determineAdvancement wd acc phrase).atype = "retry_needed" ∧
        (determineAdvancement wd acc phrase).missed_words =
          (wd.filter (fun d => d.status = "error")).map (·.expected_word)) := by
  refine ⟨?_, ?_, ?_, ?_, ?_⟩
  · intro h95
    simp only [determineAdvancement]
    rw [if_pos h95]
  · intro h95 h80
    simp only [determineAdvancement]
    rw [if_neg h95, if_pos h80]
  · intro h95 h80 h60 hlen hfrac
    simp only [determineAdvancement]
    rw [if_neg h95, if_neg h80, if_pos h60, if_pos ⟨hlen, hfrac⟩]
  · intro h95 h80 hsub h40
    simp only [determineAdvancement]
    rw [if_neg h95, if_neg h80]
    by_cases h60 : 60 ≤ acc
    · rw [if_pos h60,
        if_neg (fun hc => hsub ⟨h60, hc.1, hc.2⟩)]
      exact ⟨rfl, rfl⟩
    · rw [if_neg h60, if_pos h40]
      exact ⟨rfl, rfl⟩
  · intro h40
    have h60 : ¬ 60 ≤ acc := fun h => h40 (by linarith)
    have h80 : ¬ 80 ≤ acc := fun h => h40 (by linarith)
    have h95 : ¬ 95 ≤ acc := fun h => h40 (by linarith)
    simp only [determineAdvancement]
    rw [if_neg h95, if_neg h80, if_neg h60, if_neg h40]
    exact ⟨rfl, rfl, rfl, rfl⟩

/-- Witness for C1: the spec boundary scenario accuracy 96 advances as
"perfect". -/
theorem c1_phrase_advancement_policy_witness :
    determineAdvancement [] 96 "alpha beta" = ⟨true, "perfect", [], false⟩ :=
  (c1_phrase_advancement_policy [] 96 "alpha beta").1 (by norm_num)

/-- Counterexample to C2 as stated: starting from a record with
`ease_factor = 1.3` (the claimed lower bound), a single failed
`update_mastery` call drives the ease factor to 1.17, below 1.3 — the
failure branch floors at 1.0, not 1.3. -/
theorem c2_ease_floor_counterexample :
    (updateMastery ⟨0, 0, 0, 0, 0, false, false, 13/10, 1⟩ false 0).ease_factor
        = 117/100 ∧
    ¬ ((13/10 : ℚ) ≤ 117/100) := by
  refine ⟨?_, by norm_num⟩
  norm_num [updateMastery]

/-- C2 amended: after every mastery-update call the mastery level stays
in [0, 1]; the ease factor of `WordProgress.update_mastery` and of
`AdaptivePracticeEngine._update_word_mastery` stays in [1.0, 3.0]
(floor 1.0, not 1.3) when it starts there, and the ease factor of
`SpacedRepetitionManager.update_word_performance` is floored at 1.3 on
both branches (it has no 3.0 cap). -/
theorem c2_mastery_ease_bounds_amended :
    (∀ (p : WordProgressRec) (success : Bool) (rt : ℚ),
      0 ≤ p.mastery_level → p.mastery_level ≤ 1 →
      1 ≤ p.ease_factor → p.ease_factor ≤ 3 →
      0 ≤ (updateMastery p success rt).mastery_level ∧
      (updateMastery p success rt).mastery_level ≤ 1 ∧
      1 ≤ (updateMastery p success rt).ease_factor ∧
      (updateMastery p success rt).ease_factor ≤ 3) ∧
    (∀ (w : WordData) (correct : Bool),
      13/10 ≤ (updateWordPerformance w correct).easiness_factor) ∧
    (∀ (p : PSWordProgress) (success : Bool),
      0 ≤ p.mastery_level → p.mastery_level ≤ 1 →
      1 ≤ p.ease_factor → p.ease_factor ≤ 3 →
      0 ≤ (updateWordMasteryPS p success).mastery_level ∧
      (updateWordMasteryPS p success).mastery_level ≤ 1 ∧
      1 ≤ (updateWordMasteryPS p success).ease_factor ∧
      (updateWordMasteryPS p success).ease_factor ≤ 3) := by
  refine ⟨?_, ?_, ?_⟩
  · intro p success rt hm0 hm1 he1 he3
    have hc : (0:ℚ) ≤ ((p.consecutive_failures + 1 : ℕ) : ℚ) := Nat.cast_nonneg _
    cases success <;>
      simp only [updateMastery, Bool.false_eq_true, reduceIte] <;>
      refine ⟨?_, ?_, ?_, ?_⟩ <;> try split_ifs
    all_goals
      first
      | exact le_max_right _ _
      | exact min_le_right _ _
      | exact le_min (by nlinarith) (by norm_num)
      | exact max_le (by nlinarith) (by norm_num)
  · intro w correct
    cases correct <;>
      simp only [updateWordPerformance, Bool.false_eq_true, reduceIte] <;>
      exact le_max_left _ _
  · intro p success hm0 hm1 he1 he3
    have hpf : (0:ℚ) ≤ min (((p.times_practiced + 1 : ℕ) : ℚ) / 10) 1 :=
      le_min (by positivity) (by norm_num)
    cases success <;>
      simp only [updateWordMasteryPS, Bool.false_eq_true, reduceIte] <;>
      refine ⟨?_, ?_, ?_, ?_⟩ <;> try split_ifs
    all_goals
      first
      | exact le_max_right _ _
      | exact min_le_right _ _
      | exact le_min (by nlinarith) (by norm_num)
      | exact max_le (by nlinarith) (by norm_num)
      | exact he1
      | exact he3

/-- Witness for C2 amended: the bounds hold after a concrete successful
update of a half-mastered record with the default ease factor 2.5. -/
theorem c2_mastery_ease_bounds_amended_witness :
    0 ≤ (updateMastery ⟨4, 2, 0, 1/2, 0, false, false, 5/2, 1⟩ true 0).mastery_level ∧
    (updateMastery ⟨4, 2, 0, 1/2, 0, false, false, 5/2, 1⟩ true 0).mastery_level ≤ 1 ∧
    1 ≤ (updateMastery ⟨4, 2, 0, 1/2, 0, false, false, 5/2, 1⟩ true 0).ease_factor ∧
    (updateMastery ⟨4, 2, 0, 1/2, 0, false, false, 5/2, 1⟩ true 0).ease_factor ≤ 3 :=
  c2_mastery_ease_bounds_amended.1 ⟨4, 2, 0, 1/2, 0, false, false, 5/2, 1⟩ true 0
    (by norm_num) (by norm_num) (by norm_num) (by norm_num)

/-- Counterexample to C4 as stated: with 2 correct out of 3 prior
attempts, a successful review gives accuracy 3/4, so `accuracy*5 = 3.75`;
the code truncates (`int`) to quality 3 and yields ease factor 2.36,
whereas the claimed `round` gives quality 4 and would leave the ease
factor at 2.5. -/
theorem c4_quality_rounding_counterexample :
    (updateWordPerformance ⟨5/2, 0, 1, 3, 2, 0⟩ true).easiness_factor = 59/25 ∧
    claimEaseUpdate (5/2) (3/4) = 5/2 ∧
    ((59:ℚ)/25) ≠ 5/2 := by
  refine ⟨?_, ?_, by norm_num⟩
  · norm_num [updateWordPerformance, pyInt]
  · norm_num [claimEaseUpdate, claimQuality, round_eq]

/-- C4 amended: on a successful review, repetitions increments by 1; the
interval becomes 1 on the first success, 6 on the second, and
`int(interval * ease_factor)` (truncation) thereafter; and the ease
factor becomes
`max(1.3, ease_factor + 0.1 - (5-q)*(0.08 + (5-q)*0.02))` with
`q = clamp(int(accuracy*5), 0, 5)` — truncation, not rounding, of
`accuracy*5`, where accuracy counts the current attempt. -/
theorem c4_sm2_success_update_amended (w : WordData) :
    (updateWordPerformance w true).repetition = w.repetition + 1 ∧
    (updateWordPerformance w true).interval =
      (if w.repetition + 1 = 1 then 1
       else if w.repetition + 1 = 2 then 6
       else pyInt ((w.interval : ℚ) * w.easiness_factor)) ∧
    (updateWordPerformance w true).easiness_factor =
      max (13/10) (w.easiness_factor + ((1/10) -
        (5 - ((min 5 (max 0 (pyInt (((w.correct_attempts : ℚ) + 1) /
            ((w.total_attempts : ℚ) + 1) * 5))) : ℤ) : ℚ)) *
          ((8/100) + (5 - ((min 5 (max 0 (pyInt (((w.correct_attempts : ℚ) + 1) /
            ((w.total_attempts : ℚ) + 1) * 5))) : ℤ) : ℚ)) * (2/100)))) := by
  refine ⟨?_, ?_, ?_⟩ <;>
    simp only [updateWordPerformance, reduceIte] <;>
    norm_num

/-- Counterexample to C3 as stated: a session with the `random_hide`
strategy (which falls to the default branch) and no currently visible
words yields an empty visible set on a 5-word text — 0% visible, below
the claimed 20% floor. -/
theorem c3_visibility_floor_counterexample :
    ¬ (((pySplit "alpha beta gamma delta epsilon").length : ℚ) * (20/100) ≤
      ((calculateNextRevealSet ⟨"random_hide", 1/10, 1/10, 1, [], [], []⟩
        "alpha beta gamma delta epsilon" []).length : ℚ)) := by
  have hres : calculateNextRevealSet ⟨"random_hide", 1/10, 1/10, 1, [], [], []⟩
      "alpha beta gamma delta epsilon" [] = [] := by
    simp only [calculateNextRevealSet]
    rw [if_neg (by decide), if_neg (by decide)]
    exact pyTake_nil _
  have hlen : (pySplit "alpha beta gamma delta epsilon").length = 5 := rfl
  rw [hres, hlen]
  norm_num

/-- C3 amended: for every reveal strategy and configuration, the
computed visible set is capped at `int(0.8 * total)` word indices — at
least 20% of the tokens are always hidden; there is no floor on how few
words may be visible. -/
theorem c3_visible_cap_amended (s : RevealSession) (content : String)
    (mastery_map : List (ℕ × ℚ)) :
    (calculateNextRevealSet s content mastery_map).length ≤
      (pyInt (((pySplit content).length : ℚ) * (8/10))).toNat := by
  have h0 : (0:ℚ) ≤ ((pySplit content).length : ℚ) * (8/10) := by positivity
  simp only [calculateNextRevealSet, pyTake, pyInt, if_pos h0,
    if_pos (Int.floor_nonneg.mpr h0)]
  exact le_trans (List.length_take_le _ _) le_rfl

/-- C5: the scorer classifies replace opcodes as substitutions and
delete opcodes as missing: for expected `["the","quick","fox"]` and
spoken `["the","slow","fox"]` it reports exactly one substitution at
position 1 with expected word "quick" and spoken word "slow", and
accuracy 66.7% (the exact value is 200/3); for expected
`["one","two","three"]` and spoken `["one","three"]` it reports a
missing entry for "two", not a substitution. -/
theorem c5_substitution_and_missing_cases :
    (generateWordDiffTokens ["the","slow","fox"] ["the","quick","fox"] =
      [⟨0, "the", "the", "correct", "correct"⟩,
       ⟨1, "quick", "slow", "substitution", "error"⟩,
       ⟨2, "fox", "fox", "correct", "correct"⟩] ∧
     calculatePhraseAccuracy
       (generateWordDiffTokens ["the","slow","fox"] ["the","quick","fox"]) =
         200/3 ∧
     round ((10:ℚ) * (200/3)) = 667) ∧
    generateWordDiffTokens ["one","three"] ["one","two","three"] =
      [⟨0, "one", "one", "correct", "correct"⟩,
       ⟨1, "two", "[MISSING]", "missing", "error"⟩,
       ⟨2, "three", "three", "correct", "correct"⟩] := by
  have h1 : generateWordDiffTokens ["the","slow","fox"] ["the","quick","fox"] =
      [⟨0, "the", "the", "correct", "correct"⟩,
       ⟨1, "quick", "slow", "substitution", "error"⟩,
       ⟨2, "fox", "fox", "correct", "correct"⟩] := rfl
  have h2 : calculatePhraseAccuracy
      [⟨0, "the", "the", "correct", "correct"⟩,
       ⟨1, "quick", "slow", "substitution", "error"⟩,
       ⟨2, "fox", "fox", "correct", "correct"⟩] =
      ((2:ℕ) : ℚ) / ((3:ℕ) : ℚ) * 100 := rfl
  refine ⟨⟨h1, ?_, ?_⟩, by rfl⟩
  · rw [h1, h2]
    norm_num
  · norm_num [round_eq]

/-- Counterexample to C8 as stated: on a session log with four difficult
entries over a three-word text, the word-sequence detector raises
(`self.words[i]` goes out of range building the context words) and
`detect_patterns` returns nothing at all, even though the long-words
detector alone would have produced a pattern on the same input. -/
theorem c8_detector_isolation_counterexample :
    detectPatterns "wonderful beta gamma" [⟨3, 0⟩, ⟨3, 0⟩, ⟨3, 0⟩, ⟨3, 0⟩] [] =
      Except.error "IndexError: list index out of range" ∧
    ((detectLongWords (pySplit "wonderful beta gamma")
      [⟨3, 0⟩, ⟨3, 0⟩, ⟨3, 0⟩, ⟨3, 0⟩] []).2).length = 1 :=
  ⟨rfl, rfl⟩

/-- C8 amended: the five detectors run sequentially with no exception
isolation — when the word-sequence detector fails, `detect_patterns`
propagates the failure and returns no patterns from the other
detectors. -/
theorem c8_error_propagation_amended (content : String) (perf : List WordPerf)
    (store : List PatternRec) (e : String)
    (h : detectWordSequences (pySplit content) perf store = Except.error e) :
    detectPatterns content perf store = Except.error e := by
  simp only [detectPatterns]
  rw [h]

/-- Witness for C8 amended: the propagation applies at a concrete
malformed session log. -/
theorem c8_error_propagation_amended_witness :
    detectPatterns "magnificent beta" [⟨4, 0⟩, ⟨4, 0⟩, ⟨4, 0⟩] [] =
      Except.error "IndexError: list index out of range" :=
  c8_error_propagation_amended "magnificent beta" [⟨4, 0⟩, ⟨4, 0⟩, ⟨4, 0⟩] []
    "IndexError: list index out of range" rfl

/-- Helper: bumping a miss count does not change which words the bank
holds. -/
theorem bankWords_incFirstBank (b : List BankItem) (w : String) :
    bankWords (incFirstBank b w) = bankWords b := by
  induction b with
  | nil => rfl
  | cons it rest ih =>
    simp only [incFirstBank]
    split_ifs with h
    · rfl
    · simp only [bankWords, List.map_cons] at ih ⊢
      rw [ih]

/-- Helper: recording missed words never removes a word from the bank. -/
theorem bankWords_addMissedWords_mono (ws : List String) (b : List BankItem)
    (ctx x : String) (hx : x ∈ bankWords b) :
    x ∈ bankWords (addMissedWords b ws ctx) := by
  induction ws generalizing b with
  | nil => exact hx
  | cons w rest ih =>
    have hstep : addMissedWords b (w :: rest) ctx =
        addMissedWords
          (if (b.map (·.word)).contains w then incFirstBank b w
           else b ++ [⟨w, ctx, 1⟩]) rest ctx := rfl
    rw [hstep]
    apply ih
    split_ifs with h
    · rw [bankWords_incFirstBank]; exact hx
    · simp only [bankWords, List.map_append] at hx ⊢
      exact List.mem_append_left _ hx

/-- Helper: every recorded missed word is in the bank afterwards. -/
theorem bankWords_addMissedWords_mem (ws : List String) (b : List BankItem)
    (ctx w : String) (hw : w ∈ ws) :
    w ∈ bankWords (addMissedWords b ws ctx) := by
  induction ws generalizing b with
  | nil => cases hw
  | cons w0 rest ih =>
    have hstep : addMissedWords b (w0 :: rest) ctx =
        addMissedWords
          (if (b.map (·.word)).contains w0 then incFirstBank b w0
           else b ++ [⟨w0, ctx, 1⟩]) rest ctx := rfl
    rw [hstep]
    rcases List.mem_cons.mp hw with h | h
    · subst h
      apply bankWords_addMissedWords_mono
      split_ifs with hc
      · rw [bankWords_incFirstBank]
        simpa [bankWords] using hc
      · simp [bankWords]
    · exact ih _ h

/-- C7: after exactly 3 failed attempts on one phrase (the attempt
counter for the phrase reaches 3 on this failed attempt), the practice
view advances to the next phrase regardless of the accuracy of the
latest attempt, and the remaining missed words are recorded into the review
bank. -/
theorem c7_forced_advance_after_three_attempts
    (sd : PhraseSessionData) (text_content : String) (result : PhraseResult)
    (hfail : result.phrase_correct = false)
    (hcount : (incrementAttemptCount sd.attempt_counts
      (phraseId sd.current_position
        (getPracticePhrase text_content sd.current_position
          sd.phrase_length).phrase_text)).2 = 3) :
    (processPhraseView sd text_content result).should_advance = true ∧
    (processPhraseView sd text_content result).session.current_position =
      (getPracticePhrase text_content sd.current_position
        sd.phrase_length).end_position ∧
    ∀ w ∈ result.missed_words,
      w ∈ bankWords
        (processPhraseView sd text_content result).session.missed_words_bank := by
  have hforced : ¬ result.phrase_correct = true ∧
      ((60 ≤ result.accuracy ∧ result.missed_words.length ≤ 2) ∨
        3 ≤ (incrementAttemptCount sd.attempt_counts
          (phraseId sd.current_position
            (getPracticePhrase text_content sd.current_position
              sd.phrase_length).phrase_text)).2) :=
    ⟨by simp [hfail], Or.inr (le_of_eq hcount.symm)⟩
  have hadv : result.phrase_correct = true ∨
      (¬ result.phrase_correct = true ∧
        ((60 ≤ result.accuracy ∧ result.missed_words.length ≤ 2) ∨
          3 ≤ (incrementAttemptCount sd.attempt_counts
            (phraseId sd.current_position
              (getPracticePhrase text_content sd.current_position
                sd.phrase_length).phrase_text)).2)) := Or.inr hforced
  simp only [processPhraseView]
  refine ⟨decide_eq_true hadv, ?_, ?_⟩
  · rw [if_pos hadv]
  · intro w hw
    rw [if_pos hadv]
    by_cases hmw : result.missed_words = []
    · rw [hmw] at hw; cases hw
    · dsimp only
      rw [if_pos ⟨hforced, hmw⟩]
      exact bankWords_addMissedWords_mem _ _ _ _ hw

set_option maxRecDepth 4000 in
/-- Witness for C7: a third failed attempt on the opening phrase of a
four-word text forces advancement and records the missed word. -/
theorem c7_forced_advance_after_three_attempts_witness :
    (processPhraseView ⟨0, 10, 0, 0, [("0_alpha beta gamma del", 2)], []⟩
      "alpha beta gamma delta" ⟨false, 20, ["beta"]⟩).should_advance = true ∧
    (processPhraseView ⟨0, 10, 0, 0, [("0_alpha beta gamma del", 2)], []⟩
      "alpha beta gamma delta" ⟨false, 20, ["beta"]⟩).session.current_position =
      (getPracticePhrase "alpha beta gamma delta" 0 10).end_position ∧
    ∀ w ∈ ["beta"],
      w ∈ bankWords (processPhraseView
        ⟨0, 10, 0, 0, [("0_alpha beta gamma del", 2)], []⟩
        "alpha beta gamma delta" ⟨false, 20, ["beta"]⟩).session.missed_words_bank :=
  c7_forced_advance_after_three_attempts
    ⟨0, 10, 0, 0, [("0_alpha beta gamma del", 2)], []⟩
    "alpha beta gamma delta" ⟨false, 20, ["beta"]⟩ rfl (by decide)

/-- Helper: `_update_word_mastery` never moves the current position. -/
theorem updateWordMasteryEngine_current_word_index (st : EngineState)
    (pos : ℕ) (success : Bool) :
    (updateWordMasteryEngine st pos success).current_word_index =
      st.current_word_index := by
  unfold updateWordMasteryEngine
  split_ifs <;> rfl

/-- Helper: `_update_word_mastery` never changes how many words the
session has. -/
theorem updateWordMasteryEngine_words_length (st : EngineState)
    (pos : ℕ) (success : Bool) :
    (updateWordMasteryEngine st pos success).words.length =
      st.words.length := by
  unfold updateWordMasteryEngine
  split_ifs
  · rfl
  · simp [List.length_modify]

/-- Counterexample to C10 as stated: with a single-word session (for a
logged-in user), a matching utterance is reported as found but
`current_word_index` does not advance by one — `advance_to_word(1)`
completes the session and leaves the index unchanged at 0. -/
theorem c10_last_word_advance_counterexample :
    (processSpeechInput
      ⟨[⟨"hello", 0, 0, true, true, false, 0, 0, false⟩], 0, true, []⟩
      "hello").2.word_found = true ∧
    (processSpeechInput
      ⟨[⟨"hello", 0, 0, true, true, false, 0, 0, false⟩], 0, true, []⟩
      "hello").1.current_word_index = 0 :=
  ⟨rfl, rfl⟩

/-- C10 amended: in word-by-word mode, `process_speech_input` reports a
match if and only if some whitespace token of the lowercased spoken text,
cleaned of characters other than word characters, apostrophes and
hyphens, equals the similarly cleaned current expected word; on a match
it applies a success outcome for the current word and advances
`current_word_index` by exactly one when another word remains, while a
match on the final word completes the session leaving
`current_word_index` unchanged. -/
theorem c10_word_match_semantics_amended (st : EngineState) (spoken : String)
    (h : st.current_word_index < st.words.length) :
    ((processSpeechInput st spoken).2.word_found = true ↔
      ∃ tok ∈ pySplit (pyLower spoken),
        cleanWord tok =
          cleanWord
            (pyLower (st.words.getD st.current_word_index default).word)) ∧
    ((processSpeechInput st spoken).2.word_found = true →
      (processSpeechInput st spoken).2.outcome =
        some (st.current_word_index, true) ∧
      (st.current_word_index + 1 < st.words.length →
        (processSpeechInput st spoken).1.current_word_index =
          st.current_word_index + 1 ∧
        (processSpeechInput st spoken).2.session_complete = false) ∧
      (st.current_word_index + 1 = st.words.length →
        (processSpeechInput st spoken).1.current_word_index =
          st.current_word_index ∧
        (processSpeechInput st spoken).2.session_complete = true)) := by
  have hguard : ¬ st.words.length ≤ st.current_word_index := not_le.mpr h
  simp only [processSpeechInput]
  rw [if_neg hguard]
  by_cases hwf : spokenContainsWord spoken
      (st.words.getD st.current_word_index default).word = true
  · rw [if_pos hwf]
    simp only [spokenContainsWord, List.any_eq_true, decide_eq_true_iff] at hwf
    refine ⟨⟨fun _ => hwf, fun _ => rfl⟩, fun _ => ⟨rfl, ?_, ?_⟩⟩
    · intro hlt
      have hn : ¬ (updateWordMasteryEngine st st.current_word_index
            true).words.length ≤
          (updateWordMasteryEngine st st.current_word_index
            true).current_word_index + 1 := by
        rw [updateWordMasteryEngine_words_length,
          updateWordMasteryEngine_current_word_index]
        exact not_le.mpr hlt
      simp only [advanceToWord]
      rw [if_neg hn]
      refine ⟨?_, rfl⟩
      simp [updateWordMasteryEngine_current_word_index]
    · intro heq
      have hy : (updateWordMasteryEngine st st.current_word_index
            true).words.length ≤
          (updateWordMasteryEngine st st.current_word_index
            true).current_word_index + 1 := by
        rw [updateWordMasteryEngine_words_length,
          updateWordMasteryEngine_current_word_index]
        exact le_of_eq heq.symm
      simp only [advanceToWord]
      rw [if_pos hy]
      exact ⟨updateWordMasteryEngine_current_word_index st
        st.current_word_index true, rfl⟩
  · rw [if_neg hwf]
    constructor
    · constructor
      · intro hfalse
        exfalso
        split_ifs at hfalse <;> simp at hfalse
      · intro hex
        exfalso
        apply hwf
        simp only [spokenContainsWord, List.any_eq_true, decide_eq_true_iff]
        exact hex
    · intro hfalse
      exfalso
      split_ifs at hfalse <;> simp at hfalse

/-- Witness for C10 amended: on a two-word session of a logged-in user,
saying the expected word inside a longer utterance matches and advances
the index to 1 with a success outcome. -/
theorem c10_word_match_semantics_amended_witness :
    (processSpeechInput
      ⟨[⟨"Hello,", 0, 0, true, true, false, 0, 0, false⟩,
        ⟨"world", 1, 0, true, false, false, 0, 0, false⟩], 0, true, []⟩
      "please say hello now").1.current_word_index = 1 ∧
    (processSpeechInput
      ⟨[⟨"Hello,", 0, 0, true, true, false, 0, 0, false⟩,
        ⟨"world", 1, 0, true, false, false, 0, 0, false⟩], 0, true, []⟩
      "please say hello now").2.outcome = some (0, true) :=
  have ht := c10_word_match_semantics_amended
    ⟨[⟨"Hello,", 0, 0, true, true, false, 0, 0, false⟩,
      ⟨"world", 1, 0, true, false, false, 0, 0, false⟩], 0, true, []⟩
    "please say hello now" (by decide)
  have hwf : (processSpeechInput
      ⟨[⟨"Hello,", 0, 0, true, true, false, 0, 0, false⟩,
        ⟨"world", 1, 0, true, false, false, 0, 0, false⟩], 0, true, []⟩
      "please say hello now").2.word_found = true := rfl
  ⟨((ht.2 hwf).2.1 (by decide)).1, (ht.2 hwf).1⟩

/-- Helper: replacing the keyed row keeps the store the same length. -/
theorem replaceFirstPattern_length (store : List PatternRec) (t : String)
    (s : ℤ) (newp : PatternRec) :
    (replaceFirstPattern store t s newp).length = store.length := by
  induction store with
  | nil => rfl
  | cons q rest ih =>
    simp only [replaceFirstPattern]
    split_ifs with hq
    · rfl
    · simp [ih]

/-- Helper: replacing the first row with key `(t, s)` by a row with the
same key preserves every key count. -/
theorem patKeyCount_replaceFirstPattern (store : List PatternRec)
    (t : String) (s : ℤ) (newp : PatternRec)
    (hk1 : newp.pattern_type = t) (hk2 : newp.start_word_index = s)
    (t2 : String) (s2 : ℤ) :
    patKeyCount (replaceFirstPattern store t s newp) t2 s2 =
      patKeyCount store t2 s2 := by
  induction store with
  | nil => rfl
  | cons q rest ih =>
    simp only [replaceFirstPattern]
    split_ifs with hq
    · simp only [patKeyCount, List.countP_cons]
      congr 1
      by_cases hmatch : q.pattern_type = t2 ∧ q.start_word_index = s2
      · have hn : newp.pattern_type = t2 ∧ newp.start_word_index = s2 :=
          ⟨hk1.trans (hq.1.symm.trans hmatch.1),
           hk2.trans (hq.2.symm.trans hmatch.2)⟩
        simp [hmatch, hn]
      · have hn : ¬ (newp.pattern_type = t2 ∧ newp.start_word_index = s2) := by
          intro hcon
          exact hmatch ⟨hq.1.trans (hk1.symm.trans hcon.1),
            hq.2.trans (hk2.symm.trans hcon.2)⟩
        simp [hmatch, hn]
    · simp only [patKeyCount, List.countP_cons] at ih ⊢
      rw [ih]

/-- Helper: the row found by a key lookup carries that key. -/
theorem findPattern_some_key (store : List PatternRec) (t : String) (s : ℤ)
    (p : PatternRec) (h : findPattern store t s = some p) :
    p.pattern_type = t ∧ p.start_word_index = s := by
  unfold findPattern at h
  have h2 := List.find?_some h
  simp only [decide_eq_true_eq] at h2
  exact h2

/-- Helper: a successful key lookup means the key count is positive. -/
theorem patKeyCount_pos_of_findPattern (store : List PatternRec)
    (t : String) (s : ℤ) (p : PatternRec)
    (h : findPattern store t s = some p) :
    1 ≤ patKeyCount store t s := by
  induction store with
  | nil => cases h
  | cons q rest ih =>
    simp only [findPattern, List.find?_cons] at h
    simp only [patKeyCount, List.countP_cons]
    rcases hd : decide (q.pattern_type = t ∧ q.start_word_index = s) with _ | _
    · rw [hd] at h
      have h2 := ih h
      unfold patKeyCount at h2
      calc 1 ≤ List.countP
            (fun p => decide (p.pattern_type = t ∧ p.start_word_index = s))
            rest := h2
        _ ≤ _ := Nat.le_add_right _ _
    · simp [hd]

/-- Helper: a failed key lookup means the key count is zero. -/
theorem patKeyCount_eq_zero_of_findPattern_none (store : List PatternRec)
    (t : String) (s : ℤ)
    (h : findPattern store t s = none) :
    patKeyCount store t s = 0 := by
  induction store with
  | nil => rfl
  | cons q rest ih =>
    simp only [findPattern, List.find?_cons] at h
    rcases hd : decide (q.pattern_type = t ∧ q.start_word_index = s) with _ | _
    · rw [hd] at h
      have h2 := ih h
      unfold patKeyCount at h2
      simp only [patKeyCount, List.countP_cons, hd, Bool.false_eq_true,
        if_false, Nat.add_zero]
      exact h2
    · rw [hd] at h
      cases h

/-- Helper: the shared upsert step preserves key uniqueness. -/
theorem patStoreInv_upsertPattern (store : List PatternRec) (d : PatternRec)
    (hinv : PatStoreInv store) :
    PatStoreInv (upsertPattern store d).1 := by
  intro t2 s2
  cases hfind : findPattern store d.pattern_type d.start_word_index with
  | some p =>
    have hkey : p.pattern_type = d.pattern_type ∧
        p.start_word_index = d.start_word_index :=
      findPattern_some_key store _ _ p hfind
    have hup : (upsertPattern store d).1 =
        replaceFirstPattern store d.pattern_type d.start_word_index
          { p with frequency_encountered := p.frequency_encountered + 1 } := by
      unfold upsertPattern
      rw [hfind]
    rw [hup, patKeyCount_replaceFirstPattern store d.pattern_type
      d.start_word_index
      { p with frequency_encountered := p.frequency_encountered + 1 }
      hkey.1 hkey.2]
    exact hinv t2 s2
  | none =>
    have hup : (upsertPattern store d).1 = store ++ [d] := by
      unfold upsertPattern
      rw [hfind]
    rw [hup]
    unfold patKeyCount
    rw [List.countP_append]
    by_cases hm : d.pattern_type = t2 ∧ d.start_word_index = s2
    · have h0 : patKeyCount store t2 s2 = 0 := by
        rw [← hm.1, ← hm.2]
        exact patKeyCount_eq_zero_of_findPattern_none store _ _ hfind
      unfold patKeyCount at h0
      have h1 : (List.countP
          (fun p => decide (p.pattern_type = t2 ∧ p.start_word_index = s2))
          [d]) ≤ 1 := by
        exact le_trans (List.countP_le_length _) (by rfl)
      omega
    · have h1 : (List.countP
          (fun p => decide (p.pattern_type = t2 ∧ p.start_word_index = s2))
          [d]) = 0 := by
        simp only [List.countP_cons, List.countP_nil]
        simp [hm]
      rw [h1]
      have h2 := hinv t2 s2
      unfold patKeyCount at h2
      omega

/-- Helper: a fold of upserts preserves key uniqueness. -/
theorem patStoreInv_upsertAll_aux (ds : List PatternRec) :
    ∀ acc : List PatternRec × List PatternRec, PatStoreInv acc.1 →
      PatStoreInv ((ds.foldl (fun acc d =>
        let r := upsertPattern acc.1 d
        (r.1, acc.2 ++ [r.2])) acc)).1 := by
  induction ds with
  | nil => intro acc hacc; exact hacc
  | cons d rest ih =>
    intro acc hacc
    rw [List.foldl_cons]
    exact ih _ (patStoreInv_upsertPattern acc.1 d hacc)

/-- Helper: each detector pass preserves key uniqueness. -/
theorem patStoreInv_upsertAll (store ds : List PatternRec)
    (hinv : PatStoreInv store) :
    PatStoreInv (upsertAll store ds).1 :=
  patStoreInv_upsertAll_aux ds (store, []) hinv

/-- C9: detecting a pattern whose `(pattern_type, start_word_index)` key
already exists increments `frequency_encountered` on the existing record
instead of creating a second one (the store keeps its length and exactly
one record holds the key), and a full `detect_patterns` pass preserves
the at-most-one-record-per-key invariant of the store. -/
theorem c9_pattern_upsert_unique :
    (∀ (store : List PatternRec) (d p : PatternRec),
      PatStoreInv store →
      findPattern store d.pattern_type d.start_word_index = some p →
      (upsertPattern store d).1.length = store.length ∧
      (upsertPattern store d).2 =
        { p with frequency_encountered := p.frequency_encountered + 1 } ∧
      patKeyCount (upsertPattern store d).1 d.pattern_type
        d.start_word_index = 1) ∧
    (∀ (content : String) (perf : List WordPerf) (store : List PatternRec)
      (res : List PatternRec × List PatternRec),
      PatStoreInv store →
      detectPatterns content perf store = Except.ok res →
      PatStoreInv res.1) := by
  constructor
  · intro store d p hinv hfind
    have hkey : p.pattern_type = d.pattern_type ∧
        p.start_word_index = d.start_word_index :=
      findPattern_some_key store _ _ p hfind
    have hup : upsertPattern store d =
        (replaceFirstPattern store d.pattern_type d.start_word_index
          { p with frequency_encountered := p.frequency_encountered + 1 },
         { p with frequency_encountered := p.frequency_encountered + 1 }) := by
      unfold upsertPattern
      rw [hfind]
    rw [hup]
    refine ⟨replaceFirstPattern_length _ _ _ _, rfl, ?_⟩
    rw [patKeyCount_replaceFirstPattern store d.pattern_type
      d.start_word_index
      { p with frequency_encountered := p.frequency_encountered + 1 }
      hkey.1 hkey.2]
    refine le_antisymm (hinv _ _) ?_
    exact patKeyCount_pos_of_findPattern store _ _ p hfind
  · intro content perf store res hinv h
    simp only [detectPatterns] at h
    cases hws : detectWordSequences (pySplit content) perf store with
    | error e =>
      rw [hws] at h
      cases h
    | ok r1 =>
      rw [hws] at h
      have hinv1 : PatStoreInv r1.1 := by
        unfold detectWordSequences at hws
        cases hds : wordSequenceDefaults (pySplit content) perf with
        | error e => rw [hds] at hws; cases hws
        | ok ds =>
          rw [hds] at hws
          cases hws
          exact patStoreInv_upsertAll _ _ hinv
      injection h with h2
      rw [← h2]
      exact patStoreInv_upsertAll _ _ (patStoreInv_upsertAll _ _
        (patStoreInv_upsertAll _ _ (patStoreInv_upsertAll _ _ hinv1)))

/-- Witness for C9: re-detecting a stored word-sequence pattern bumps its
frequency from 1 to 2 without adding a second row. -/
theorem c9_pattern_upsert_unique_witness :
    (upsertPattern
      [⟨"word_sequence", 2, 4, 1/2, 1, ["a", "b", "c"]⟩]
      ⟨"word_sequence", 2, 4, 0, 1, ["a", "b", "c"]⟩).1.length = 1 ∧
    (upsertPattern
      [⟨"word_sequence", 2, 4, 1/2, 1, ["a", "b", "c"]⟩]
      ⟨"word_sequence", 2, 4, 0, 1, ["a", "b", "c"]⟩).2 =
      ⟨"word_sequence", 2, 4, 1/2, 1 + 1, ["a", "b", "c"]⟩ ∧
    patKeyCount (upsertPattern
      [⟨"word_sequence", 2, 4, 1/2, 1, ["a", "b", "c"]⟩]
      ⟨"word_sequence", 2, 4, 0, 1, ["a", "b", "c"]⟩).1 "word_sequence" 2 = 1 :=
  c9_pattern_upsert_unique.1
    [⟨"word_sequence", 2, 4, 1/2, 1, ["a", "b", "c"]⟩]
    ⟨"word_sequence", 2, 4, 0, 1, ["a", "b", "c"]⟩
    ⟨"word_sequence", 2, 4, 1/2, 1, ["a", "b", "c"]⟩
    (fun t s => le_trans (List.countP_le_length _) (le_of_eq rfl))
    rfl

/-- Helper: a common run is no longer than the first list. -/
theorem matchLen_le_left (a : List String) :
    ∀ b : List String, matchLen a b ≤ a.length := by
  induction a with
  | nil => intro b; cases b <;> simp [matchLen]
  | cons x xs ih =>
    intro b
    cases b with
    | nil => simp [matchLen]
    | cons y ys =>
      simp only [matchLen, List.length_cons]
      split_ifs
      · exact Nat.succ_le_succ (ih ys)
      · exact Nat.zero_le _

/-- Helper: a list matches itself along its whole length. -/
theorem matchLen_self (l : List String) : matchLen l l = l.length := by
  induction l with
  | nil => rfl
  | cons x xs ih => simp [matchLen, ih]

/-- Helper: a windowed run cannot leave the first window. -/
theorem runLen_le (a b : List String) (i j ahi bhi : ℕ) :
    runLen a b i j ahi bhi ≤ ahi - i := by
  unfold runLen
  refine le_trans (matchLen_le_left _ _) ?_
  rw [List.length_take]
  exact min_le_left _ _

/-- Helper: a fold of `flmStep` never moves off a best entry that already
dominates every remaining candidate. -/
theorem flmStep_foldl_const (a b : List String) (ahi bhi : ℕ)
    (l : List (ℕ × ℕ)) (best : ℕ × ℕ × ℕ)
    (hle : ∀ ij : ℕ × ℕ, runLen a b ij.1 ij.2 ahi bhi ≤ best.2.2) :
    l.foldl (flmStep a b ahi bhi) best = best := by
  induction l with
  | nil => rfl
  | cons ij rest ih =>
    rw [List.foldl_cons]
    have hstep : flmStep a b ahi bhi best ij = best := by
      unfold flmStep
      rw [if_neg (not_lt.mpr (hle ij))]
    rw [hstep, ih]

/-- Helper: on identical sequences the longest match over the full
windows is the whole sequence. -/
theorem flm_self (a : List String) (h : a ≠ []) :
    findLongestMatch a a 0 a.length 0 a.length = (0, 0, a.length) := by
  have hn : 0 < a.length := List.length_pos.mpr h
  have hk : runLen a a 0 0 a.length a.length = a.length := by
    unfold runLen
    rw [List.drop_zero, Nat.sub_zero, List.take_length, matchLen_self]
  have hbound : ∀ ij : ℕ × ℕ,
      runLen a a ij.1 ij.2 a.length a.length ≤ a.length :=
    fun ij => le_trans (runLen_le a a ij.1 ij.2 _ _) (Nat.sub_le _ _)
  obtain ⟨x, xs, rfl⟩ : ∃ x xs, a = x :: xs := by
    cases a with
    | nil => exact absurd rfl h
    | cons x xs => exact ⟨x, xs, rfl⟩
  unfold findLongestMatch flmCandidates
  rw [Nat.sub_zero, List.length_cons, List.range'_succ, List.map_cons,
    List.flatten_cons, List.map_cons, List.foldl_append, List.foldl_cons]
  have hfirst : flmStep (x :: xs) (x :: xs) (xs.length + 1) (xs.length + 1)
      (0, 0, 0) (0, 0) = (0, 0, xs.length + 1) := by
    unfold flmStep
    simp only [List.length_cons] at hk
    rw [hk, if_pos (Nat.succ_pos _)]
  rw [hfirst]
  have hconst : ∀ l : List (ℕ × ℕ),
      l.foldl (flmStep (x :: xs) (x :: xs) (xs.length + 1) (xs.length + 1))
        (0, 0, xs.length + 1) = (0, 0, xs.length + 1) := by
    intro l
    refine flmStep_foldl_const _ _ _ _ _ _ ?_
    intro ij
    have := hbound ij
    simpa using this
  rw [hconst, hconst]

/-- Helper: with an empty first window no blocks are produced. -/
theorem matchingBlocksAux_empty_left (a b : List String)
    (fuel alo blo bhi : ℕ) :
    matchingBlocksAux a b fuel alo alo blo bhi = [] := by
  cases fuel with
  | zero => rfl
  | succ m =>
    have hflm : findLongestMatch a b alo alo blo bhi = (alo, blo, 0) := by
      unfold findLongestMatch flmCandidates
      rw [Nat.sub_self]
      rfl
    simp only [matchingBlocksAux]
    rw [hflm]
    simp

/-- Helper: on identical sequences the raw block list is one full
block. -/
theorem matchingBlocks_self (a : List String) (h : a ≠ []) :
    matchingBlocks a a = [(0, 0, a.length)] := by
  have hn : 0 < a.length := List.length_pos.mpr h
  unfold matchingBlocks
  simp only [matchingBlocksAux]
  rw [flm_self a h]
  rw [if_pos hn]
  rw [matchingBlocksAux_empty_left]
  simp only [Nat.zero_add]
  rw [matchingBlocksAux_empty_left]
  rfl

/-- Helper: on identical sequences `get_matching_blocks` is the full
block and the sentinel. -/
theorem getMatchingBlocks_self (a : List String) (h : a ≠ []) :
    getMatchingBlocks a a = [(0, 0, a.length), (a.length, a.length, 0)] := by
  have hn : 0 < a.length := List.length_pos.mpr h
  unfold getMatchingBlocks
  rw [matchingBlocks_self a h]
  simp only [mergeAdjAux]
  simp [hn]

/-- Helper: on identical sequences the opcodes are a single `equal`
spanning everything. -/
theorem getOpcodes_self (a : List String) (h : a ≠ []) :
    getOpcodes a a = [⟨Tag.equal, 0, a.length, 0, a.length⟩] := by
  have hn : 0 < a.length := List.length_pos.mpr h
  unfold getOpcodes
  rw [getMatchingBlocks_self a h]
  simp only [opcodesAux]
  rw [if_neg (by simp), if_neg (by simp), if_neg (by simp), if_pos hn]
  rw [if_neg (by omega : ¬ (0 + a.length < a.length ∧ 0 + a.length < a.length)),
    if_neg (by omega : ¬ 0 + a.length < a.length),
    if_neg (by omega : ¬ 0 + a.length < a.length)]
  simp

/-- Helper: on identical sequences the word diff is one correct entry per
token. -/
theorem generateWordDiffTokens_self (X : List String) (h : X ≠ []) :
    generateWordDiffTokens X X =
      (List.range' 0 X.length).map (fun (i : ℕ) =>
        ⟨(i : ℤ), X.getD i "", X.getD i "", "correct", "correct"⟩) := by
  unfold generateWordDiffTokens
  rw [getOpcodes_self X h]
  simp

/-- Helper: the phrase accuracy of an all-correct, no-extra diff list is
100. -/
theorem calculatePhraseAccuracy_all_correct (L : List DiffEntry)
    (hL : L ≠ [])
    (hall : ∀ e ∈ L, e.status = "correct" ∧ e.dtype = "correct") :
    calculatePhraseAccuracy L = 100 := by
  unfold calculatePhraseAccuracy
  rw [if_neg hL]
  dsimp only
  have h1 : L.filter (fun d => decide (d.status = "correct")) = L :=
    List.filter_eq_self.mpr (fun e he => by
      rw [decide_eq_true_iff]
      exact (hall e he).1)
  have h2 : L.filter (fun d => decide (d.dtype ≠ "extra")) = L :=
    List.filter_eq_self.mpr (fun e he => by
      rw [decide_eq_true_iff, (hall e he).2]
      decide)
  rw [h1, h2]
  have hn : 0 < L.length := List.length_pos.mpr hL
  rw [Nat.max_eq_left hn]
  rw [div_self (by exact_mod_cast Nat.pos_iff_ne_zero.mp hn)]
  norm_num

/-- Helper: every entry of the identical-input diff is fully correct. -/
theorem generateWordDiffTokens_self_all_correct (X : List String)
    (h : X ≠ []) :
    ∀ e ∈ generateWordDiffTokens X X,
      e.status = "correct" ∧ e.dtype = "correct" := by
  rw [generateWordDiffTokens_self X h]
  intro e he
  rcases List.mem_map.mp he with ⟨i, _, rfl⟩
  exact ⟨rfl, rfl⟩

/-- C6: for every non-empty token sequence X, scoring X against itself
yields accuracy 100 and a diff list in which every entry has status and
type "correct" (no substitution, missing, or extra entries). -/
theorem c6_diff_exact_on_identical (X : List String) (h : X ≠ []) :
    calculatePhraseAccuracy (generateWordDiffTokens X X) = 100 ∧
    ∀ e ∈ generateWordDiffTokens X X,
      e.status = "correct" ∧ e.dtype = "correct" := by
  have hn : 0 < X.length := List.length_pos.mpr h
  have hall := generateWordDiffTokens_self_all_correct X h
  refine ⟨?_, hall⟩
  have hne : generateWordDiffTokens X X ≠ [] := by
    rw [generateWordDiffTokens_self X h]
    exact List.ne_nil_of_length_pos
      (by rw [List.length_map, List.length_range']; exact hn)
  exact calculatePhraseAccuracy_all_correct _ hne hall

/-- Witness for C6: the identical-input property at a concrete two-token
sequence. -/
theorem c6_diff_exact_on_identical_witness :
    calculatePhraseAccuracy
      (generateWordDiffTokens ["hello", "world"] ["hello", "world"]) = 100 ∧
    ∀ e ∈ generateWordDiffTokens ["hello", "world"] ["hello", "world"],
      e.status = "correct" ∧ e.dtype = "correct" :=
  c6_diff_exact_on_identical ["hello", "world"] (by decide)

end SpeechMemo
